import Mathlib

/-!
Verification development for the MDFTable component
(`src/modules/table/mdf-table.ts` of the mirai-designs framework).

The TypeScript class manipulates DOM table rows: it filters them, sorts them
in place, paginates them and tracks checkbox selection.  We embed the
claim-relevant state and operations shallowly:

* a DOM `<tr>` element becomes a `Row` (a stable `id` plus its `<td>` cells);
* a cell carries its `textContent` and its optional `data-date-format`
  attribute;
* row visibility (the `mdf-hidden` class toggled by `row.hide()` /
  `row.show()`) becomes a `Finset Nat` of visible row ids;
* `this.filteredRows` (a JS field that is `undefined` until the first
  `filter` call) becomes an `Option (List Row)`;
* each public operation becomes a pure state transformer; operations that
  dispatch the `MDFTable:paginated` custom event also return the event
  payloads they emit.

Visual-only side effects (CSS classes on headers and pagination controls,
the pagination stats text, `localStorage` writes, `scrollIntoView`) are
either modelled as booleans where a claim depends on them (the
disabled state of the two pagination controls) or omitted.
-/

/-- A `<td>` cell: its `textContent` and its optional `data-date-format`
attribute (`attr.format` in the source's constants). -/
structure Cell where
  text : String
  format : Option String
deriving DecidableEq

/-- A `<tr>` row: a stable identity (its position in the initial markup,
standing in for JS object identity) and its cells. -/
structure Row where
  id : Nat
  cells : List Cell
deriving DecidableEq

/-- A `<th>` header: whether it carries the `mdf-table__header--sortable`
class and its optional `data-column-type` attribute. -/
structure Header where
  sortable : Bool
  colType : Option String
deriving DecidableEq

/-- `el.cells[c]` with an out-of-range default; theorems that depend on a
cell supply an in-bounds hypothesis (the spec's well-formedness invariant:
every row has one cell per column). -/
def cellAt (r : Row) (c : Nat) : Cell :=
  r.cells.getD c ⟨"", none⟩

/-- `el.textContent` of a row: concatenation of its cells' text. -/
def rowText (r : Row) : String :=
  String.join (r.cells.map Cell.text)

/-- Does `needle` occur at the very start of `hay`? -/
def leadMatch : List Char → List Char → Bool
  | [], _ => true
  | _ :: _, [] => false
  | a :: l1, b :: l2 => a == b && leadMatch l1 l2

/-- Does `needle` occur contiguously anywhere in the second list? -/
def inclMatch (needle : List Char) : List Char → Bool
  | [] => needle.isEmpty
  | b :: t => leadMatch needle (b :: t) || inclMatch needle t

/-- `hay.toUpperCase().includes(needle.toUpperCase())` (upper-casing
applied per character, as `String.toUpper` does). -/
def jsIncludes (hay needle : String) : Bool :=
  inclMatch (needle.toList.map Char.toUpper) (hay.toList.map Char.toUpper)

/-- The row predicate of `filter(value, column)`.  The source tests
`if (column)`: a JS truthiness check, false for `undefined` and for `0`,
so `column = 0` falls into the whole-row branch. -/
def matchRow (value : String) (column : Option Nat) (r : Row) : Bool :=
  match column with
  | some (c + 1) => jsIncludes (cellAt r (c + 1)).text value
  | _ => jsIncludes (rowText r) value

/-- The ids of a list of rows, as a set (the DOM visibility of each row is a
single class toggle, so only set membership matters). -/
def idsFin (l : List Row) : Finset Nat :=
  (l.map Row.id).toFinset

/-- The claim-relevant mutable state of an `MDFTable` instance. -/
structure TableState where
  rows : List Row
  headers : List Header
  filteredRows : Option (List Row)
  visible : Finset Nat
  currPage : Nat
  itemsPerPage : Nat
  pages : Nat
  sortASC : Bool
  prevDisabled : Bool
  nextDisabled : Bool
  optPaginate : Bool
deriving DecidableEq

/-- Payload of the `MDFTable:paginated` custom event (`currPage` and the
ids of the `items` row list). -/
structure PagEvent where
  currPage : Nat
  items : List Nat
deriving DecidableEq

/-- `filter(value, column)`: store the matching rows in
`this.filteredRows`, hide every row of `this.rows`, then show exactly the
matching rows.  No event is dispatched. -/
def filterOp (value : String) (column : Option Nat) (s : TableState) : TableState :=
  let matched := s.rows.filter (matchRow value column)
  { s with
    filteredRows := some matched
    visible := (s.visible \ idsFin s.rows) ∪ idsFin matched }

/-- `Math.ceil (n / l)` for natural `n` and positive `l`. -/
def ceilDiv (n l : Nat) : Nat :=
  (n + l - 1) / l

/-- `paginate(limit)`: set the page limit, show the whole active row
universe (`filteredRows` if set, else all rows), reset to page 1, compute
the page count, and when more than one page exists hide the rows past the
first page and set the controls (previous disabled, next enabled);
otherwise leave everything shown and disable both controls.  Dispatches
one `paginated` event whose `items` is the whole universe. -/
def paginateOp (limit : Nat) (s : TableState) : TableState × PagEvent :=
  let s0 := { s with itemsPerPage := limit }
  let rowsToShow := s0.filteredRows.getD s0.rows
  let shown := s0.visible ∪ idsFin rowsToShow
  let rowsTotal := rowsToShow.length
  let rowsToHide := rowsToShow.drop limit
  let pages := ceilDiv rowsTotal limit
  if 1 < pages then
    ({ s0 with
        visible := shown \ idsFin rowsToHide
        currPage := 1
        pages := pages
        prevDisabled := true
        nextDisabled := false },
      ⟨1, rowsToShow.map Row.id⟩)
  else
    ({ s0 with
        visible := shown ∪ idsFin rowsToShow
        currPage := 1
        pages := pages
        prevDisabled := true
        nextDisabled := true },
      ⟨1, rowsToShow.map Row.id⟩)

/-- `prevPage()`: a guarded return when `currPage < 2`; otherwise step the
page back, hide all rows, show the new page's slice of the active
universe, update the controls, and dispatch a `paginated` event. -/
def prevPageOp (s : TableState) : TableState × List PagEvent :=
  if s.currPage < 2 then (s, [])
  else
    let currPage := s.currPage - 1
    let paginateFrom := s.itemsPerPage * (currPage - 1)
    let rowUniverse := s.filteredRows.getD s.rows
    let rowsToShow := (rowUniverse.drop paginateFrom).take s.itemsPerPage
    ({ s with
        currPage := currPage
        visible := (s.visible \ idsFin s.rows) ∪ idsFin rowsToShow
        prevDisabled := if currPage = 1 then true else s.prevDisabled
        nextDisabled := false },
      [⟨currPage, rowsToShow.map Row.id⟩])

/-- `nextPage()`: a guarded return when `currPage === pages`; otherwise
step the page forward, hide all rows, show the new page's slice of the
active universe, update the controls, and dispatch a `paginated` event. -/
def nextPageOp (s : TableState) : TableState × List PagEvent :=
  if s.currPage = s.pages then (s, [])
  else
    let currPage := s.currPage + 1
    let paginateFrom := s.itemsPerPage * (currPage - 1)
    let rowUniverse := s.filteredRows.getD s.rows
    let rowsToShow := (rowUniverse.drop paginateFrom).take s.itemsPerPage
    ({ s with
        currPage := currPage
        visible := (s.visible \ idsFin s.rows) ∪ idsFin rowsToShow
        prevDisabled := false
        nextDisabled := if currPage = s.pages then true else s.nextDisabled },
      [⟨currPage, rowsToShow.map Row.id⟩])

/-- One step of building a collator sort key: accumulate a digit run (as
its numeric value) or emit a case-folded character.  Models
`Intl.Collator(undefined, { numeric: true, sensitivity: 'base' })` for
the ASCII strings the component compares: digit runs compare numerically
and letters case-insensitively. -/
def collStep (acc : List (Nat ⊕ Char) × Option Nat) (c : Char) :
    List (Nat ⊕ Char) × Option Nat :=
  if c.isDigit then
    (acc.1, some ((acc.2.getD 0) * 10 + (c.toNat - 48)))
  else
    match acc.2 with
    | some n => (acc.1 ++ [Sum.inl n, Sum.inr c.toLower], none)
    | none => (acc.1 ++ [Sum.inr c.toLower], none)

/-- The collator sort key of a string. -/
def collKey (s : String) : List (Nat ⊕ Char) :=
  let p := s.toList.foldl collStep ([], none)
  p.1 ++ (match p.2 with | some n => [Sum.inl n] | none => [])

/-- Comparison of single key units (numbers sort before letters). -/
def cmpSeg : Nat ⊕ Char → Nat ⊕ Char → Ordering
  | Sum.inl a, Sum.inl b => compare a b
  | Sum.inl _, Sum.inr _ => .lt
  | Sum.inr _, Sum.inl _ => .gt
  | Sum.inr a, Sum.inr b => compare a b

/-- Lexicographic comparison of key-unit lists. -/
def cmpSegList : List (Nat ⊕ Char) → List (Nat ⊕ Char) → Ordering
  | [], [] => .eq
  | [], _ :: _ => .lt
  | _ :: _, [] => .gt
  | a :: l1, b :: l2 =>
    match cmpSeg a b with
    | .eq => cmpSegList l1 l2
    | o => o

/-- `collator.compare(a, b)` of the source's natural-order collator. -/
def collatorCompare (a b : String) : Ordering :=
  cmpSegList (collKey a) (collKey b)

/-- Stable insertion of `x` (an element originally earlier than everything
in the list) into an already-sorted list: `x` passes only elements it
strictly follows. -/
def insertT (cmp : α → α → Ordering) (x : α) : List α → List α
  | [] => [x]
  | y :: ys => if cmp x y = .gt then y :: insertT cmp x ys else x :: y :: ys

/-- Stable insertion sort with a total comparator. -/
def insertSortT (cmp : α → α → Ordering) : List α → List α
  | [] => []
  | x :: xs => insertT cmp x (insertSortT cmp xs)

/-- Stable insertion with a comparator that may throw. -/
def insertE (cmp : α → α → Except ε Ordering) (x : α) : List α → Except ε (List α)
  | [] => .ok [x]
  | y :: ys =>
    match cmp x y with
    | .error e => .error e
    | .ok o => if o = .gt then (insertE cmp x ys).map (y :: ·) else .ok (x :: y :: ys)

/-- Stable insertion sort with a comparator that may throw: the model of
`Array.prototype.sort` with the source's throwing date comparator.
ES2019+ `sort` reads the elements into an internal list, sorts that list
with an implementation-defined sequence of comparator calls — stopping at
the first abrupt completion — and writes back only on success, so on a
comparator throw the array is left unmodified and the exception reaches
the caller.  For a consistent comparator a stable comparison sort has a
unique result, so stable insertion sort is a faithful model of the
successful case. -/
def insertionSortE (cmp : α → α → Except ε Ordering) : List α → Except ε (List α)
  | [] => .ok []
  | x :: xs =>
    match insertionSortE cmp xs with
    | .error e => .error e
    | .ok s => insertE cmp x s

/-- The delimiters the source's split regex actually matches.  The regex
is a character class listing dot, hyphen, slash; inside a class the
hyphen between two characters is the range operator, so the class is the
range U+002E to U+002F — only `.` and `/`.  The hyphen itself is *not* a
delimiter. -/
def isDateDelim (c : Char) : Bool :=
  c == '.' || c == '/'

/-- The source's `date.split` on the character list (keeping empty
pieces, as JS `split` does). -/
def jsSplitList : List Char → List (List Char)
  | [] => [[]]
  | c :: rest =>
    if isDateDelim c then [] :: jsSplitList rest
    else
      match jsSplitList rest with
      | [] => [[c]]
      | h :: t => (c :: h) :: t

/-- The source's `date.split` at the regex-matched delimiters. -/
def jsSplit (s : String) : List String :=
  (jsSplitList s.toList).map List.asString

/-- JS unary plus applied to a split token: the empty string is `0`, a
digit-only string is its numeric value, anything else is `NaN` (`none`).
(JS `+` additionally accepts signs, whitespace and hex notation, which
never survive tokenisation of a date cell and are not modelled.) -/
def jsToNumber (s : String) : Option Nat :=
  if s.toList.all Char.isDigit then
    some (s.toList.foldl (fun n c => n * 10 + (c.toNat - 48)) 0)
  else none

/-- Gregorian leap-year test. -/
def isLeap (y : Nat) : Bool :=
  (y % 4 == 0 && y % 100 != 0) || y % 400 == 0

/-- Days before the first of 0-based month `m0` within one year. -/
def monthOffset (leap : Bool) (m0 : Nat) : Nat :=
  let l := if leap then 1 else 0
  match m0 with
  | 0 => 0
  | 1 => 31
  | 2 => 59 + l
  | 3 => 90 + l
  | 4 => 120 + l
  | 5 => 151 + l
  | 6 => 181 + l
  | 7 => 212 + l
  | 8 => 243 + l
  | 9 => 273 + l
  | 10 => 304 + l
  | _ => 334 + l

/-- Days in the proleptic Gregorian years `0, …, y-1`. -/
def daysBeforeYear (y : Nat) : Nat :=
  365 * y + (y + 3) / 4 + (y + 399) / 400 - (y + 99) / 100

/-- Day number of the first day of absolute month index `mu` (months
counted from month 0 of year 0). -/
def firstOfMonth (mu : Nat) : Nat :=
  daysBeforeYear (mu / 12) + monthOffset (isLeap (mu / 12)) (mu % 12)

/-- The time value (as a day count) of JS `new Date(y, m, d)` for
non-negative arguments: years `0–99` map to `1900 + y`, `m` is a
*zero-based* month index normalized by carrying into the year, and day
`d` means `d - 1` days after the first of that month (day overflow rolls
into later months, exactly as JS normalizes it). -/
def jsMakeDate (y m d : Nat) : Int :=
  let y0 := if y ≤ 99 then y + 1900 else y
  (firstOfMonth (12 * y0 + m) : Int) + d - 1

/-- `convertStringToDate(date, format)`: split at the delimiters the
regex actually matches, apply unary plus to the tokens the format
selects, and build the `Date`.  A missing token (`splitDate[i]` is `undefined`), a
non-numeric token, or a format not in the `switch` yields an invalid
date / `undefined` result, modelled as `none`. -/
def convertStringToDate (date fmt : String) : Option Int :=
  let toks := jsSplit date
  let g := fun (i : Nat) =>
    match toks[i]? with
    | some t => jsToNumber t
    | none => none
  let mk := fun (y m d : Option Nat) =>
    match y, m, d with
    | some y, some m, some d => some (jsMakeDate y m d)
    | _, _, _ => none
  match fmt with
  | "DMY" => mk (g 2) (g 1) (g 0)
  | "MDY" => mk (g 2) (g 0) (g 1)
  | "YMD" => mk (g 0) (g 1) (g 2)
  | "YDM" => mk (g 0) (g 2) (g 1)
  | _ => none

/-- `s1 < s2 ? -1 : s1 > s2 ? 1 : 0` on two JS `Date` objects: an invalid
date's time value is `NaN`, for which both comparisons are false, so any
comparison involving an invalid date yields `0`. -/
def jsDateOrd : Option Int → Option Int → Ordering
  | some a, some b => if a < b then .lt else if b < a then .gt else .eq
  | _, _ => .eq

/-- The comparator `sortColumn` passes to `rows.sort` for a `Date`-typed
column: it throws unless both compared cells carry the
`data-date-format` attribute. -/
def dateCmp (asc : Bool) (column : Nat) (a b : Row) : Except String Ordering :=
  let d1 := cellAt a column
  let d2 := cellAt b column
  if d1.format.isSome && d2.format.isSome then
    let s1 := convertStringToDate d1.text (d1.format.getD "")
    let s2 := convertStringToDate d2.text (d2.format.getD "")
    .ok (if asc then jsDateOrd s1 s2 else jsDateOrd s2 s1)
  else
    .error "Make sure table cells have the data-date-format attribute"

/-- The comparator for a plain text column (the collator path). -/
def textCmp (asc : Bool) (column : Nat) (a b : Row) : Ordering :=
  let s1 := (cellAt a column).text
  let s2 := (cellAt b column).text
  if asc then collatorCompare s1 s2 else collatorCompare s2 s1

/-- `this.headers[i]` with an out-of-range default. -/
def headerAt (s : TableState) (i : Nat) : Header :=
  s.headers.getD i ⟨false, none⟩

/-- The row-reordering part of `sortColumn(column)`: the `Date` path uses
the throwing comparator (see `insertionSortE` for why a throw leaves the
rows unchanged), the other path the total collator comparator. -/
def sortColumnRows (s : TableState) (column : Nat) : Except String (List Row) :=
  if (headerAt s column).colType = some "Date" then
    insertionSortE (dateCmp s.sortASC column) s.rows
  else
    .ok (insertSortT (textCmp s.sortASC column) s.rows)

/-- The `sortOnClick` handler for a click on header `i`, including its
pagination fix-up (header CSS classes and `aria-sort` are not modelled).
The `sortASC` flip happens before `sortColumn`; if the date comparator
throws, the exception propagates before the DOM re-append and before the
pagination fix-up, leaving rows and visibility as they were (the error
message is returned in the second component). -/
def sortOnClickOp (i : Nat) (s : TableState) : TableState × Option String :=
  if (headerAt s i).sortable = false then (s, none)
  else
    let s1 := { s with sortASC := !s.sortASC }
    match sortColumnRows s1 i with
    | .error e => (s1, some e)
    | .ok newRows =>
      let s2 := { s1 with rows := newRows }
      if s2.optPaginate then
        let rowUniverse := s2.filteredRows.getD s2.rows
        let paginateFrom := s2.itemsPerPage * (s2.currPage - 1)
        let rowsToShow := (rowUniverse.drop paginateFrom).take s2.itemsPerPage
        ({ s2 with visible := (s2.visible \ idsFin rowUniverse) ∪ idsFin rowsToShow },
          none)
      else (s2, none)

/-- The checkbox-related state: the row checkboxes' `checked` flags (the
header checkbox is kept separately), the header checkbox's displayed
state, and the `selectedRows` counter — which the constructor initializes
to `0` no matter how many checkboxes the markup has pre-checked. -/
structure CheckboxState where
  boxes : List Bool
  headerChecked : Bool
  headerInd : Bool
  selectedRows : Int
deriving DecidableEq

/-- An `input` event reaching `checkboxEvents`: the header checkbox
toggled to `v`, or row `i`'s checkbox toggled. -/
inductive CbEvent where
  | header (v : Bool)
  | row (i : Nat)
deriving DecidableEq

/-- One run of `checkboxEvents`.  The browser flips the clicked input's
`checked` property before the handler runs; the handler branches on the
new value.  The header branch (re)sets every row checkbox and the
counter; the row branch increments or decrements the counter and derives
the header display from it (`<= 0` → unchecked, `< rows.length` →
indeterminate, `== rows.length` → checked, anything larger matches no
branch and leaves the display as it was). -/
def cbStep (st : CheckboxState) : CbEvent → CheckboxState
  | .header v =>
    { boxes := List.replicate st.boxes.length v
      headerChecked := v
      headerInd := false
      selectedRows := if v then (st.boxes.length : Int) else 0 }
  | .row i =>
    let newVal := !(st.boxes.getD i false)
    let boxes := st.boxes.set i newVal
    let cnt := if newVal then st.selectedRows + 1 else st.selectedRows - 1
    let n : Int := st.boxes.length
    if cnt ≤ 0 then
      { boxes := boxes, headerChecked := false, headerInd := false, selectedRows := cnt }
    else if cnt < n then
      { boxes := boxes, headerChecked := false, headerInd := true, selectedRows := cnt }
    else if cnt = n then
      { boxes := boxes, headerChecked := true, headerInd := false, selectedRows := cnt }
    else
      { st with boxes := boxes, selectedRows := cnt }

/-- A sequence of checkbox events processed in order. -/
def cbRun (start : CheckboxState) (evts : List CbEvent) : CheckboxState :=
  evts.foldl cbStep start

/-- The rows of 1-based page `page`:
`slice(limit * (page - 1), limit * page)`. -/
def pageSlice (l : List Row) (limit page : Nat) : List Row :=
  (l.drop (limit * (page - 1))).take limit

/-- `k` successive `nextPage()` clicks (states only). -/
def nextPages : Nat → TableState → TableState
  | 0, s => s
  | k + 1, s => nextPages k (nextPageOp s).1

/-- Modelled from the spec: the calendar date `(year, month, day)` that a
three-token date string denotes under each format's token order
(`MDY` → month, day, year, and so on).  This is the spec-side reading the
code's conversion is compared against. -/
def specDenotedDate (fmt : String) (t1 t2 t3 : Nat) : Option (Nat × Nat × Nat) :=
  match fmt with
  | "DMY" => some (t3, t2, t1)
  | "MDY" => some (t3, t1, t2)
  | "YMD" => some (t1, t2, t3)
  | "YDM" => some (t1, t3, t2)
  | _ => none

/-- Chronological (lexicographic) comparison of `(year, month, day)`. -/
def tripleCompare : Nat × Nat × Nat → Nat × Nat × Nat → Ordering
  | (y1, m1, d1), (y2, m2, d2) =>
    if y1 < y2 then .lt
    else if y2 < y1 then .gt
    else if m1 < m2 then .lt
    else if m2 < m1 then .gt
    else if d1 < d2 then .lt
    else if d2 < d1 then .gt
    else .eq

/-- If a throwing computation never returns `ok`, it is an error. -/
theorem exists_error_of_no_ok {m : Except ε α} (h : ∀ o, m ≠ .ok o) :
    ∃ e, m = .error e := by
  cases m with
  | error e => exact ⟨e, rfl⟩
  | ok o => exact absurd rfl (h o)

/-- A successful `insertE` permutes its inputs. -/
theorem insertE_ok_perm {cmp : α → α → Except ε Ordering} {x : α} :
    ∀ {l out : List α}, insertE cmp x l = .ok out → out.Perm (x :: l) := by
  intro l
  induction l with
  | nil =>
    intro out h
    simp only [insertE] at h
    cases h
    exact List.Perm.refl _
  | cons y ys ih =>
    intro out h
    cases hc : cmp x y with
    | error e =>
      simp only [insertE, hc] at h
      exact Except.noConfusion h
    | ok o =>
      simp only [insertE, hc] at h
      by_cases hgt : o = .gt
      · rw [if_pos hgt] at h
        cases hrec : insertE cmp x ys with
        | error e =>
          rw [hrec] at h
          simp only [Except.map] at h
          exact Except.noConfusion h
        | ok out1 =>
          rw [hrec] at h
          simp only [Except.map, Except.ok.injEq] at h
          subst h
          exact ((ih hrec).cons y).trans (List.Perm.swap x y ys)
      · rw [if_neg hgt] at h
        cases h
        exact List.Perm.refl _

/-- A successful `insertionSortE` permutes its inputs. -/
theorem insertionSortE_ok_perm {cmp : α → α → Except ε Ordering} :
    ∀ {l out : List α}, insertionSortE cmp l = .ok out → out.Perm l := by
  intro l
  induction l with
  | nil =>
    intro out h
    simp only [insertionSortE] at h
    cases h
    exact List.Perm.refl _
  | cons x xs ih =>
    intro out h
    simp only [insertionSortE] at h
    cases hrec : insertionSortE cmp xs with
    | error e => rw [hrec] at h; cases h
    | ok s =>
      rw [hrec] at h
      exact (insertE_ok_perm h).trans ((ih hrec).cons x)

/-- `insertE` succeeds when the comparator is total against the list. -/
theorem insertE_total {cmp : α → α → Except ε Ordering} {x : α} :
    ∀ {l : List α}, (∀ y ∈ l, ∃ o, cmp x y = .ok o) →
      ∃ out, insertE cmp x l = .ok out := by
  intro l
  induction l with
  | nil => intro _; exact ⟨[x], rfl⟩
  | cons y ys ih =>
    intro h
    obtain ⟨o, ho⟩ := h y (List.mem_cons_self y ys)
    by_cases hgt : o = .gt
    · obtain ⟨out, hout⟩ := ih (fun z hz => h z (List.mem_cons_of_mem y hz))
      exact ⟨y :: out, by simp only [insertE, ho, if_pos hgt, hout, Except.map]⟩
    · exact ⟨x :: y :: ys, by simp only [insertE, ho, if_neg hgt]⟩

/-- `insertionSortE` succeeds when the comparator is total on the list. -/
theorem insertionSortE_total {cmp : α → α → Except ε Ordering} :
    ∀ {l : List α}, (∀ a ∈ l, ∀ b ∈ l, ∃ o, cmp a b = .ok o) →
      ∃ out, insertionSortE cmp l = .ok out := by
  intro l
  induction l with
  | nil => intro _; exact ⟨[], rfl⟩
  | cons x xs ih =>
    intro h
    obtain ⟨s, hs⟩ := ih (fun a ha b hb =>
      h a (List.mem_cons_of_mem x ha) b (List.mem_cons_of_mem x hb))
    have hmem : ∀ y ∈ s, ∃ o, cmp x y = .ok o := fun y hy =>
      h x (List.mem_cons_self x xs) y
        (List.mem_cons_of_mem x ((insertionSortE_ok_perm hs).mem_iff.mp hy))
    obtain ⟨out, hout⟩ := insertE_total hmem
    exact ⟨out, by simp only [insertionSortE, hs, hout]⟩

/-- If some list member makes every comparator call throw and the list has
at least two elements, `insertionSortE` throws: any element of a list of
length at least two takes part in at least one comparison. -/
theorem insertionSortE_error_of_mem {cmp : α → α → Except ε Ordering} {z : α}
    (hzl : ∀ w, ∀ o, cmp z w ≠ .ok o) (hzr : ∀ w, ∀ o, cmp w z ≠ .ok o) :
    ∀ {l : List α}, z ∈ l → 2 ≤ l.length →
      ∃ e, insertionSortE cmp l = .error e := by
  intro l
  induction l with
  | nil => intro hz; cases hz
  | cons x xs ih =>
    intro hz hlen
    cases hrec : insertionSortE cmp xs with
    | error e => exact ⟨e, by simp only [insertionSortE, hrec]⟩
    | ok s =>
      have hslen : s.length = xs.length := (insertionSortE_ok_perm hrec).length_eq
      have hxs1 : 1 ≤ xs.length := by
        simp only [List.length_cons] at hlen; omega
      cases hs : s with
      | nil => rw [hs] at hslen; simp at hslen; omega
      | cons w s1 =>
        rcases List.mem_cons.mp hz with hzx | hzxs
        · subst hzx
          obtain ⟨e, he⟩ := exists_error_of_no_ok (hzl w)
          refine ⟨e, ?_⟩
          simp only [insertionSortE, hrec, hs, insertE, he]
        · by_cases h2 : 2 ≤ xs.length
          · obtain ⟨e, he⟩ := ih hzxs h2
            rw [he] at hrec; cases hrec
          · have hxseq : xs.length = 1 := by omega
            have hxz : xs = [z] := by
              cases xs with
              | nil => cases hzxs
              | cons a l2 =>
                cases l2 with
                | nil =>
                  have haz : z = a := List.mem_singleton.mp hzxs
                  rw [haz]
                | cons b l3 => simp at hxseq
            subst hxz
            have hseq : s = [z] :=
              List.perm_singleton.mp (insertionSortE_ok_perm hrec)
            rw [hs] at hseq
            injection hseq with hw hs1
            subst hw
            subst hs1
            obtain ⟨e, he⟩ := exists_error_of_no_ok (hzr x)
            refine ⟨e, ?_⟩
            simp only [insertionSortE, hrec, hs, insertE, he]

/-- A date comparator call with a format-less left cell never succeeds. -/
theorem dateCmp_error_left (asc : Bool) (column : Nat) (a b : Row)
    (h : (cellAt a column).format = none) :
    ∀ o, dateCmp asc column a b ≠ .ok o := by
  intro o
  simp [dateCmp, h]

/-- A date comparator call with a format-less right cell never succeeds. -/
theorem dateCmp_error_right (asc : Bool) (column : Nat) (a b : Row)
    (h : (cellAt b column).format = none) :
    ∀ o, dateCmp asc column a b ≠ .ok o := by
  intro o
  simp [dateCmp, h]

/-- A date comparator call succeeds when both cells carry a format. -/
theorem dateCmp_ok (asc : Bool) (column : Nat) (a b : Row)
    (ha : (cellAt a column).format.isSome) (hb : (cellAt b column).format.isSome) :
    ∃ o, dateCmp asc column a b = .ok o := by
  simp only [dateCmp, ha, hb, Bool.and_self, if_true]
  exact ⟨_, rfl⟩

/-- Sample rows for witnesses and counterexamples. -/
def rowA : Row := ⟨0, [⟨"a", none⟩]⟩

/-- Second sample row. -/
def rowB : Row := ⟨1, [⟨"b", none⟩]⟩

/-- A row whose first cell does not contain "a" but whose second does. -/
def rowBA : Row := ⟨2, [⟨"b", none⟩, ⟨"a", none⟩]⟩

/-- A date cell row lacking the `data-date-format` attribute. -/
def rowD1 : Row := ⟨3, [⟨"01.02.2020", none⟩]⟩

/-- Another date cell row lacking the `data-date-format` attribute. -/
def rowD2 : Row := ⟨4, [⟨"03.04.2019", none⟩]⟩

/-- A two-row paginated table on page 1 of 2 (page size 1). -/
def baseState : TableState :=
  { rows := [rowA, rowB]
    headers := [⟨true, none⟩]
    filteredRows := none
    visible := {0, 1}
    currPage := 1
    itemsPerPage := 1
    pages := 2
    sortASC := true
    prevDisabled := true
    nextDisabled := false
    optPaginate := true }

/-- The same table on its last page. -/
def lastPageState : TableState :=
  { baseState with currPage := 2, visible := {1}, prevDisabled := false, nextDisabled := true }

/-- A table with a sortable `Date` column whose cells lack the format
attribute. -/
def dateState : TableState :=
  { baseState with rows := [rowD1, rowD2], headers := [⟨true, some "Date"⟩], visible := {3, 4} }

/-- A one-row table whose row matches "a" only outside cell 0. -/
def zeroColState : TableState :=
  { baseState with rows := [rowBA], visible := {2} }

/-- Claim C9: with pagination active, `prevPage()` on page 1 is a no-op —
state unchanged and no `paginated` event — and `nextPage()` on the last
page (`currPage = pages`) is likewise a no-op. -/
theorem c9_boundary_noop (s t : TableState) :
    (s.currPage = 1 → prevPageOp s = (s, [])) ∧
    (t.currPage = t.pages → nextPageOp t = (t, [])) := by
  constructor
  · intro h
    unfold prevPageOp
    rw [if_pos (by omega)]
  · intro h
    unfold nextPageOp
    rw [if_pos h]

/-- Claim C9, witness: the boundary no-ops at a concrete two-page table. -/
theorem c9_boundary_noop_witness :
    baseState.currPage = 1 ∧ prevPageOp baseState = (baseState, []) ∧
    lastPageState.currPage = lastPageState.pages ∧
    nextPageOp lastPageState = (lastPageState, []) :=
  ⟨rfl, (c9_boundary_noop baseState lastPageState).1 rfl, rfl,
    (c9_boundary_noop baseState lastPageState).2 rfl⟩

/-- Claim C10: `filter` leaves the row store untouched and stores the
matching rows as an order-preserving subsequence (a sublist) of the row
store's current sequence. -/
theorem c10_filter_order_preserving (value : String) (column : Option Nat) (s : TableState) :
    (filterOp value column s).rows = s.rows ∧
    (filterOp value column s).filteredRows = some (s.rows.filter (matchRow value column)) ∧
    (s.rows.filter (matchRow value column)).Sublist s.rows :=
  ⟨rfl, rfl, List.filter_sublist s.rows⟩

/-- Claim C6: when a sort triggered through a sortable header click fails
with the missing-format error, the observable row order (and visibility)
afterwards equals the order before the sort: ES2019+ `Array.prototype.sort`
does not write back on an abrupt comparator completion, and the handler
aborts before its pagination fix-up. -/
theorem c6_failed_sort_atomic (i : Nat) (s : TableState) (e : String)
    (h : (sortOnClickOp i s).2 = some e) :
    (sortOnClickOp i s).1.rows = s.rows ∧ (sortOnClickOp i s).1.visible = s.visible := by
  by_cases hso : (headerAt s i).sortable = false
  · simp only [sortOnClickOp, if_pos hso] at h
    exact Option.noConfusion h
  · cases heq : sortColumnRows { s with sortASC := !s.sortASC } i with
    | error e2 =>
      simp only [sortOnClickOp, if_neg hso, heq]
      trivial
    | ok newRows =>
      simp only [sortOnClickOp, if_neg hso, heq] at h
      split at h
      · exact Option.noConfusion h
      · exact Option.noConfusion h

/-- Claim C6, witness: a concrete failing date sort leaves the two rows in
their original order. -/
theorem c6_failed_sort_atomic_witness :
    (sortOnClickOp 0 dateState).2 =
      some "Make sure table cells have the data-date-format attribute" ∧
    ((sortOnClickOp 0 dateState).1.rows = dateState.rows ∧
      (sortOnClickOp 0 dateState).1.visible = dateState.visible) :=
  ⟨by decide,
    c6_failed_sort_atomic 0 dateState
      "Make sure table cells have the data-date-format attribute" (by decide)⟩

/-- Claim C7: sorting a `Date`-typed column raises the missing-format
error exactly when the column has at least two rows (so that the cells
are actually compared) and some compared cell lacks the
`data-date-format` attribute; with every cell carrying the attribute the
sort completes without error.  The error value is returned to the caller
of the sort operation. -/
theorem c7_date_sort_error_iff (s : TableState) (column : Nat)
    (hdate : (headerAt s column).colType = some "Date")
    (hwf : ∀ r ∈ s.rows, column < r.cells.length) :
    (∃ e, sortColumnRows s column = .error e) ↔
      (2 ≤ s.rows.length ∧ ∃ r ∈ s.rows, (cellAt r column).format = none) := by
  have hrw : sortColumnRows s column =
      insertionSortE (dateCmp s.sortASC column) s.rows := by
    unfold sortColumnRows
    rw [if_pos hdate]
  rw [hrw]
  constructor
  · rintro ⟨e, he⟩
    by_contra hcon
    push_neg at hcon
    by_cases hlen : 2 ≤ s.rows.length
    · have hall : ∀ r ∈ s.rows, (cellAt r column).format.isSome := by
        intro r hr
        exact Option.ne_none_iff_isSome.mp (hcon hlen r hr)
      obtain ⟨out, hout⟩ := insertionSortE_total
        (fun a ha b hb => dateCmp_ok s.sortASC column a b (hall a ha) (hall b hb))
      rw [hout] at he
      exact Except.noConfusion he
    · cases hrows : s.rows with
      | nil =>
        rw [hrows] at he
        exact Except.noConfusion he
      | cons a l =>
        cases l with
        | nil =>
          rw [hrows] at he
          simp only [insertionSortE, insertE] at he
          exact Except.noConfusion he
        | cons b l2 =>
          rw [hrows] at hlen
          simp only [List.length_cons] at hlen
          omega
  · rintro ⟨hlen, r, hr, hnone⟩
    exact insertionSortE_error_of_mem
      (fun w => dateCmp_error_left s.sortASC column r w hnone)
      (fun w => dateCmp_error_right s.sortASC column w r hnone)
      hr hlen

/-- Claim C7, witness: at a concrete `Date` column with two format-less
cells, the sort errors; the hypotheses hold by computation. -/
theorem c7_date_sort_error_iff_witness :
    (headerAt dateState 0).colType = some "Date" ∧
    (∃ e, sortColumnRows dateState 0 = .error e) :=
  ⟨rfl,
    (c7_date_sort_error_iff dateState 0 rfl (by decide)).mpr
      ⟨by decide, rowD1, by decide, rfl⟩⟩

/-- Claim C5 (amended): because the source guards the column argument
with a JS truthiness check, `filter(value, 0)` is indistinguishable from
`filter(value)` — the whole-row concatenated-text match — while any
nonzero column index restricts the match to that cell. -/
theorem c5_amended_falsy_zero (value : String) (c : Nat) (s : TableState) (hc : c ≠ 0) :
    filterOp value (some 0) s = filterOp value none s ∧
    (filterOp value (some c) s).filteredRows =
      some (s.rows.filter (fun r => jsIncludes (cellAt r c).text value)) := by
  constructor
  · rfl
  · obtain ⟨k, rfl⟩ := Nat.exists_eq_succ_of_ne_zero hc
    rfl

/-- Claim C5, counterexample: `filter("a", 0)` matches a row whose cell 0
does not contain "a" (its other cell does), so the column-0 call does not
restrict the match to cell 0 as the claim states. -/
theorem c5_counterexample :
    (filterOp "a" (some 0) zeroColState).filteredRows = some [rowBA] ∧
    jsIncludes (cellAt rowBA 0).text "a" = false := by
  constructor
  · rfl
  · rfl

/-- Claim C5, witness for the amended statement: at a concrete nonzero
column the match is cell-restricted, and column 0 equals no-column. -/
theorem c5_amended_falsy_zero_witness :
    (1 : Nat) ≠ 0 ∧
    (filterOp "a" (some 0) zeroColState = filterOp "a" none zeroColState ∧
      (filterOp "a" (some 1) zeroColState).filteredRows =
        some (zeroColState.rows.filter (fun r => jsIncludes (cellAt r 1).text "a"))) :=
  ⟨one_ne_zero, c5_amended_falsy_zero "a" 1 zeroColState one_ne_zero⟩

/-- `insertT` permutes its inputs. -/
theorem insertT_perm (cmp : α → α → Ordering) (x : α) :
    ∀ l : List α, (insertT cmp x l).Perm (x :: l) := by
  intro l
  induction l with
  | nil => exact List.Perm.refl _
  | cons y ys ih =>
    by_cases h : cmp x y = .gt
    · simp only [insertT, if_pos h]
      exact (ih.cons y).trans (List.Perm.swap x y ys)
    · simp only [insertT, if_neg h]
      exact List.Perm.refl _

/-- `insertSortT` permutes its inputs. -/
theorem insertSortT_perm (cmp : α → α → Ordering) :
    ∀ l : List α, (insertSortT cmp l).Perm l := by
  intro l
  induction l with
  | nil => exact List.Perm.refl _
  | cons x xs ih =>
    exact (insertT_perm cmp x (insertSortT cmp xs)).trans (ih.cons x)

/-- A successful `sortColumn` permutes the rows. -/
theorem sortColumnRows_ok_perm {s : TableState} {column : Nat} {out : List Row}
    (h : sortColumnRows s column = .ok out) : out.Perm s.rows := by
  unfold sortColumnRows at h
  by_cases hd : (headerAt s column).colType = some "Date"
  · rw [if_pos hd] at h
    exact insertionSortE_ok_perm h
  · rw [if_neg hd] at h
    cases h
    exact insertSortT_perm _ s.rows

/-- Row lists with the same members have comparable id sets. -/
theorem idsFin_mono {l1 l2 : List Row} (h : ∀ r ∈ l1, r ∈ l2) :
    idsFin l1 ⊆ idsFin l2 := by
  intro n hn
  simp only [idsFin, List.mem_toFinset, List.mem_map] at hn ⊢
  obtain ⟨r, hr, hid⟩ := hn
  exact ⟨r, h r hr, hid⟩

/-- Permuted row lists have the same id set. -/
theorem idsFin_perm {l1 l2 : List Row} (h : l1.Perm l2) : idsFin l1 = idsFin l2 :=
  List.toFinset_eq_of_perm _ _ (h.map Row.id)

/-- The empty filter value matches against any haystack. -/
theorem jsIncludes_empty (hay : String) : jsIncludes hay "" = true := by
  unfold jsIncludes
  cases hay.toList.map Char.toUpper with
  | nil => rfl
  | cons b t => rfl

/-- The empty filter value matches every row, whatever the column. -/
theorem matchRow_empty (c : Option Nat) (r : Row) : matchRow "" c r = true := by
  unfold matchRow
  cases c with
  | none => exact jsIncludes_empty _
  | some k =>
    cases k with
    | zero => exact jsIncludes_empty _
    | succ k2 => exact jsIncludes_empty _

/-- Claim C3 (amended): `filter("")` matches every row, restores every
row to visible, and a subsequent `paginate` computes its page count from
the full row count — but the stored `filteredRows` becomes the full
matching list (a copy of the row sequence), not `none`. -/
theorem c3_amended_empty_filter (s : TableState) (c : Option Nat) (limit : Nat)
    (hl : 1 ≤ limit) (hvis : s.visible ⊆ idsFin s.rows) :
    (filterOp "" c s).filteredRows = some s.rows ∧
    (filterOp "" c s).visible = idsFin s.rows ∧
    (paginateOp limit (filterOp "" c s)).1.pages = ceilDiv s.rows.length limit := by
  have hfil : s.rows.filter (matchRow "" c) = s.rows :=
    List.filter_eq_self.mpr (fun r _ => matchRow_empty c r)
  refine ⟨?_, ?_, ?_⟩
  · simp [filterOp, hfil]
  · simp only [filterOp, hfil]
    rw [Finset.sdiff_union_self_eq_union]
    exact Finset.union_eq_right.mpr hvis
  · simp only [filterOp, hfil, paginateOp]
    split
    · rfl
    · rfl

/-- Claim C3, counterexample: after `filter("")` the stored row universe
is `some` full row list, not `none` as the claim states. -/
theorem c3_counterexample :
    (filterOp "" none baseState).filteredRows = some [rowA, rowB] ∧
    (filterOp "" none baseState).filteredRows ≠ none := by
  constructor
  · rfl
  · intro h
    rw [show (filterOp "" none baseState).filteredRows = some [rowA, rowB] from rfl] at h
    exact Option.noConfusion h

/-- Claim C3, witness for the amended statement at a concrete table. -/
theorem c3_amended_empty_filter_witness :
    ((1 : Nat) ≤ 1 ∧ baseState.visible ⊆ idsFin baseState.rows) ∧
    ((filterOp "" none baseState).filteredRows = some baseState.rows ∧
      (filterOp "" none baseState).visible = idsFin baseState.rows ∧
      (paginateOp 1 (filterOp "" none baseState)).1.pages =
        ceilDiv baseState.rows.length 1) :=
  ⟨⟨le_refl 1, by decide⟩, c3_amended_empty_filter baseState none 1 (le_refl 1) (by decide)⟩

/-- Claim C1 (amended): with pagination active, a `filter` call leaves
exactly the matching rows visible — it performs no page-1 re-slice, so
matching rows past the first page's slice stay visible until the next
pagination call — and a sort through a sortable header click re-slices
the current page against the *stored* universe in its stored order: the
freshly sorted row list when no filter is stored, but the stale pre-sort
order of `filteredRows` when a filter is active. -/
theorem c1_amended_visibility (s : TableState) (value : String) (c : Option Nat)
    (i : Nat)
    (hso : (headerAt s i).sortable = true)
    (hpag : s.optPaginate = true)
    (hok : (sortOnClickOp i s).2 = none)
    (hvisU : s.visible ⊆ idsFin (s.filteredRows.getD s.rows))
    (hsub : ∀ l, s.filteredRows = some l → l.Sublist s.rows) :
    (filterOp value c s).visible = idsFin (s.rows.filter (matchRow value c)) ∧
    (sortOnClickOp i s).1.visible =
      idsFin (pageSlice
        ((sortOnClickOp i s).1.filteredRows.getD (sortOnClickOp i s).1.rows)
        s.itemsPerPage s.currPage) := by
  have hvisR : s.visible ⊆ idsFin s.rows := by
    cases hf : s.filteredRows with
    | none => rw [hf] at hvisU; exact hvisU
    | some l =>
      rw [hf] at hvisU
      exact hvisU.trans (idsFin_mono (fun r hr => (hsub l hf).subset hr))
  constructor
  · simp only [filterOp]
    rw [Finset.sdiff_eq_empty_iff_subset.mpr hvisR, Finset.empty_union]
  · have hso2 : ¬((headerAt s i).sortable = false) := by simp [hso]
    cases heq : sortColumnRows { s with sortASC := !s.sortASC } i with
    | error e =>
      simp only [sortOnClickOp, if_neg hso2, heq] at hok
      exact Option.noConfusion hok
    | ok newRows =>
      have hperm : newRows.Perm s.rows :=
        sortColumnRows_ok_perm (s := { s with sortASC := !s.sortASC }) heq
      have hU : s.visible ⊆ idsFin (s.filteredRows.getD newRows) := by
        cases hf : s.filteredRows with
        | none =>
          rw [hf] at hvisU
          simpa [idsFin_perm hperm] using hvisU
        | some l =>
          rw [hf] at hvisU
          exact hvisU
      simp only [sortOnClickOp, if_neg hso2, heq]
      simp only [hpag, if_true]
      rw [Finset.sdiff_eq_empty_iff_subset.mpr hU, Finset.empty_union]
      rfl

/-- Claim C1, counterexample: on a two-row table paginated one row per
page, `filter("")` leaves both rows visible although page 1's slice of
the filtered universe is one row; and after the filter, a descending sort
click shows the slice of the stale stored universe (`{0}`) instead of the
slice of the newly ordered rows (`{1}`). -/
theorem c1_counterexample :
    ((filterOp "" none (paginateOp 1 baseState).1).visible = {0, 1} ∧
      idsFin (pageSlice ((paginateOp 1 baseState).1.rows.filter (matchRow "" none)) 1 1) =
        {0}) ∧
    ((sortOnClickOp 0 (filterOp "" none (paginateOp 1 baseState).1)).1.visible = {0} ∧
      idsFin (pageSlice
        (sortOnClickOp 0 (filterOp "" none (paginateOp 1 baseState).1)).1.rows 1 1) =
        {1}) := by
  refine ⟨⟨?_, ?_⟩, ?_, ?_⟩ <;> decide

/-- Claim C1, witness for the amended statement on a concrete paginated
table. -/
theorem c1_amended_visibility_witness :
    ((headerAt (paginateOp 1 baseState).1 0).sortable = true ∧
      (paginateOp 1 baseState).1.optPaginate = true ∧
      (sortOnClickOp 0 (paginateOp 1 baseState).1).2 = none ∧
      (paginateOp 1 baseState).1.visible ⊆
        idsFin ((paginateOp 1 baseState).1.filteredRows.getD (paginateOp 1 baseState).1.rows)) ∧
    ((filterOp "a" none (paginateOp 1 baseState).1).visible =
        idsFin ((paginateOp 1 baseState).1.rows.filter (matchRow "a" none)) ∧
      (sortOnClickOp 0 (paginateOp 1 baseState).1).1.visible =
        idsFin (pageSlice
          ((sortOnClickOp 0 (paginateOp 1 baseState).1).1.filteredRows.getD
            (sortOnClickOp 0 (paginateOp 1 baseState).1).1.rows)
          (paginateOp 1 baseState).1.itemsPerPage (paginateOp 1 baseState).1.currPage)) :=
  ⟨⟨by decide, by decide, by decide, by decide⟩,
    c1_amended_visibility (paginateOp 1 baseState).1 "a" none 0 (by decide) (by decide)
      (by decide) (by decide) (fun l h => Option.noConfusion h)⟩

/-- `ceilDiv` gives enough pages to hold all rows. -/
theorem le_mul_ceilDiv (n l : Nat) (hl : 1 ≤ l) : n ≤ l * ceilDiv n l := by
  unfold ceilDiv
  have h1 := Nat.div_add_mod (n + l - 1) l
  have h2 := Nat.mod_lt (n + l - 1) (show 0 < l from hl)
  generalize hA : l * ((n + l - 1) / l) = A at h1 ⊢
  generalize hB : (n + l - 1) % l = B at h1 h2
  omega

/-- With at most one page, the whole universe fits in one page. -/
theorem ceilDiv_le_one (n l : Nat) (hl : 1 ≤ l) (h : ceilDiv n l ≤ 1) : n ≤ l := by
  unfold ceilDiv at h
  have h1 := Nat.div_add_mod (n + l - 1) l
  have h2 := Nat.mod_lt (n + l - 1) (show 0 < l from hl)
  have h3 : l * ((n + l - 1) / l) ≤ l * 1 := Nat.mul_le_mul_left l h
  generalize hA : l * ((n + l - 1) / l) = A at h1 h3
  generalize hB : (n + l - 1) % l = B at h1 h2
  omega

/-- Dropping more of a list keeps membership. -/
theorem drop_mem_mono {L : List Nat} {c b : Nat} (hcb : c ≤ b) : L.drop b ⊆ L.drop c := by
  intro x hx
  have hb : c + (b - c) = b := by omega
  rw [← hb, ← List.drop_drop] at hx
  exact List.drop_subset _ _ hx

/-- In a duplicate-free list, the taken prefix and dropped suffix are
disjoint as sets. -/
theorem toFinset_take_disjoint_drop {L : List Nat} (hN : L.Nodup) (a : Nat) :
    Disjoint (L.take a).toFinset (L.drop a).toFinset := by
  have h1 : (L.take a ++ L.drop a).Nodup := by
    rw [List.take_append_drop]; exact hN
  rw [List.nodup_append] at h1
  rw [Finset.disjoint_left]
  intro x hx1 hx2
  exact h1.2.2 (List.mem_toFinset.mp hx1) (List.mem_toFinset.mp hx2)

/-- Distinct page slices of a duplicate-free list are disjoint. -/
theorem slice_disjoint {L : List Nat} (hN : L.Nodup) (limit i j : Nat) (hij : i < j) :
    Disjoint ((L.drop (limit * i)).take limit).toFinset
      ((L.drop (limit * j)).take limit).toFinset := by
  have hbase := toFinset_take_disjoint_drop hN (limit * i + limit)
  rw [Finset.disjoint_left] at hbase ⊢
  intro x hx1 hx2
  rw [List.mem_toFinset] at hx1 hx2
  have h1 : x ∈ L.take (limit * i + limit) := by
    rw [List.take_add]
    exact List.mem_append_right _ hx1
  have h2 : x ∈ L.drop (limit * i + limit) := by
    have hle : limit * i + limit ≤ limit * j := by
      have hij2 : i + 1 ≤ j := hij
      calc limit * i + limit = limit * (i + 1) := by ring
        _ ≤ limit * j := Nat.mul_le_mul_left limit hij2
    exact drop_mem_mono hle (List.take_subset _ _ hx2)
  exact hbase (List.mem_toFinset.mpr h1) (List.mem_toFinset.mpr h2)

/-- The first `p` page slices together are the first `limit * p` elements. -/
theorem slices_biUnion (L : List Nat) (limit : Nat) :
    ∀ p : Nat, (Finset.range p).biUnion
        (fun k => ((L.drop (limit * k)).take limit).toFinset) =
      (L.take (limit * p)).toFinset := by
  intro p
  induction p with
  | zero => simp
  | succ p ih =>
    rw [Finset.range_succ, Finset.biUnion_insert, ih]
    have hmul : limit * (p + 1) = limit * p + limit := by ring
    rw [hmul, List.take_add, List.toFinset_append]
    exact Finset.union_comm _ _

/-- The slice ids are the slice of the id list. -/
theorem idsFin_pageSlice (U : List Row) (limit k : Nat) :
    idsFin (pageSlice U limit k) =
      (((U.map Row.id).drop (limit * (k - 1))).take limit).toFinset := by
  simp [idsFin, pageSlice, List.map_take, List.map_drop]

/-- `paginate` leaves rows, filter and sort state alone and fills in page
bookkeeping. -/
theorem paginateOp_fields (limit : Nat) (s : TableState) :
    (paginateOp limit s).1.rows = s.rows ∧
    (paginateOp limit s).1.filteredRows = s.filteredRows ∧
    (paginateOp limit s).1.itemsPerPage = limit ∧
    (paginateOp limit s).1.currPage = 1 ∧
    (paginateOp limit s).1.pages = ceilDiv (s.filteredRows.getD s.rows).length limit := by
  simp only [paginateOp]
  split
  · exact ⟨rfl, rfl, rfl, rfl, rfl⟩
  · exact ⟨rfl, rfl, rfl, rfl, rfl⟩

/-- After `paginate`, exactly the first page of the universe is visible. -/
theorem paginateOp_visible (limit : Nat) (s : TableState) (hl : 1 ≤ limit)
    (hN : ((s.filteredRows.getD s.rows).map Row.id).Nodup)
    (hvis : s.visible ⊆ idsFin (s.filteredRows.getD s.rows)) :
    (paginateOp limit s).1.visible =
      idsFin ((s.filteredRows.getD s.rows).take limit) := by
  have hsplit : idsFin (s.filteredRows.getD s.rows) =
      idsFin ((s.filteredRows.getD s.rows).take limit) ∪
        idsFin ((s.filteredRows.getD s.rows).drop limit) := by
    simp only [idsFin]
    rw [← List.toFinset_append, ← List.map_append, List.take_append_drop]
  have hdisj : Disjoint (idsFin ((s.filteredRows.getD s.rows).take limit))
      (idsFin ((s.filteredRows.getD s.rows).drop limit)) := by
    simp only [idsFin, List.map_take, List.map_drop]
    exact toFinset_take_disjoint_drop hN limit
  simp only [paginateOp]
  split
  · show (s.visible ∪ idsFin (s.filteredRows.getD s.rows)) \
        idsFin ((s.filteredRows.getD s.rows).drop limit) =
      idsFin ((s.filteredRows.getD s.rows).take limit)
    rw [Finset.union_sdiff_distrib, hsplit, Finset.union_sdiff_distrib,
      Finset.sdiff_self, Finset.union_empty,
      Finset.sdiff_eq_self_iff_disjoint.mpr hdisj]
    have hsub2 : s.visible \ idsFin ((s.filteredRows.getD s.rows).drop limit) ⊆
        idsFin ((s.filteredRows.getD s.rows).take limit) := by
      intro x hx
      rw [Finset.mem_sdiff] at hx
      have hxU := hvis hx.1
      rw [hsplit, Finset.mem_union] at hxU
      exact hxU.resolve_right hx.2
    exact Finset.union_eq_right.mpr hsub2
  · rename_i hpages
    show (s.visible ∪ idsFin (s.filteredRows.getD s.rows)) ∪
        idsFin (s.filteredRows.getD s.rows) =
      idsFin ((s.filteredRows.getD s.rows).take limit)
    have hlen : (s.filteredRows.getD s.rows).length ≤ limit :=
      ceilDiv_le_one _ limit hl (by omega)
    rw [List.take_of_length_le hlen, Finset.union_assoc, Finset.union_self]
    exact Finset.union_eq_right.mpr hvis

/-- `nextPage` off the last page advances the page and shows exactly the
new page's slice. -/
theorem nextPageOp_fields (t : TableState) (hne : ¬(t.currPage = t.pages))
    (hsubR : t.visible ⊆ idsFin t.rows) :
    (nextPageOp t).1.rows = t.rows ∧
    (nextPageOp t).1.filteredRows = t.filteredRows ∧
    (nextPageOp t).1.itemsPerPage = t.itemsPerPage ∧
    (nextPageOp t).1.pages = t.pages ∧
    (nextPageOp t).1.currPage = t.currPage + 1 ∧
    (nextPageOp t).1.visible =
      idsFin (pageSlice (t.filteredRows.getD t.rows) t.itemsPerPage (t.currPage + 1)) := by
  simp only [nextPageOp]
  rw [if_neg hne]
  refine ⟨rfl, rfl, rfl, rfl, rfl, ?_⟩
  show (t.visible \ idsFin t.rows) ∪
      idsFin (((t.filteredRows.getD t.rows).drop (t.itemsPerPage * (t.currPage + 1 - 1))).take
        t.itemsPerPage) =
    idsFin (pageSlice (t.filteredRows.getD t.rows) t.itemsPerPage (t.currPage + 1))
  rw [Finset.sdiff_eq_empty_iff_subset.mpr hsubR, Finset.empty_union]
  rfl

/-- Invariant of iterated `nextPage`: starting from a state showing
exactly its current page's slice, `k` clicks later the table shows
exactly the slice of page `currPage + k`. -/
theorem nextPages_slice :
    ∀ (k : Nat) (t : TableState),
      (∀ l, t.filteredRows = some l → l.Sublist t.rows) →
      t.currPage + k ≤ t.pages →
      t.visible = idsFin (pageSlice (t.filteredRows.getD t.rows) t.itemsPerPage t.currPage) →
      (nextPages k t).visible =
        idsFin (pageSlice (t.filteredRows.getD t.rows) t.itemsPerPage (t.currPage + k)) ∧
      (nextPages k t).rows = t.rows ∧
      (nextPages k t).filteredRows = t.filteredRows ∧
      (nextPages k t).itemsPerPage = t.itemsPerPage ∧
      (nextPages k t).pages = t.pages ∧
      (nextPages k t).currPage = t.currPage + k := by
  intro k
  induction k with
  | zero =>
    intro t _ _ hvis
    exact ⟨by simpa using hvis, rfl, rfl, rfl, rfl, by simp [nextPages]⟩
  | succ k ih =>
    intro t hsub hk hvis
    have hne : ¬(t.currPage = t.pages) := by omega
    have hUsubR : ∀ r ∈ t.filteredRows.getD t.rows, r ∈ t.rows := by
      cases hf : t.filteredRows with
      | none => simp
      | some l =>
        intro r hr
        rw [Option.getD_some] at hr
        exact (hsub l hf).subset hr
    have hsubR : t.visible ⊆ idsFin t.rows := by
      rw [hvis]
      refine idsFin_mono (fun r hr => hUsubR r ?_)
      exact List.drop_subset _ _ (List.take_subset _ _ hr)
    obtain ⟨hrows, hfil, hipp, hpag, hcur, hvisN⟩ := nextPageOp_fields t hne hsubR
    have hstep : nextPages (k + 1) t = nextPages k (nextPageOp t).1 := rfl
    have ihres := ih (nextPageOp t).1
      (by rw [hfil, hrows]; exact hsub)
      (by rw [hcur, hpag]; omega)
      (by rw [hvisN, hfil, hrows, hipp, hcur])
    rw [hstep]
    obtain ⟨i1, i2, i3, i4, i5, i6⟩ := ihres
    rw [hfil, hrows, hipp, hcur] at i1
    rw [hrows] at i2
    rw [hfil] at i3
    rw [hipp] at i4
    rw [hpag] at i5
    rw [hcur] at i6
    refine ⟨?_, i2, i3, i4, i5, by omega⟩
    rw [i1]
    have : t.currPage + 1 + k = t.currPage + (k + 1) := by omega
    rw [this]

/-- Claim C8: for the active row universe and any page size at least 1,
`paginate` yields `totalPages = ceil(universe.length / pageSize)`; page 1
(as shown by `paginate`) and each subsequent page (as shown by successive
`nextPage` clicks) display exactly that page's slice of the universe;
distinct pages' slices are disjoint; and the slices of pages
`1..totalPages` together are exactly the universe. -/
theorem c8_pagination_coverage (s : TableState) (limit : Nat) (hl : 1 ≤ limit)
    (hN : ((s.filteredRows.getD s.rows).map Row.id).Nodup)
    (hsub : ∀ l, s.filteredRows = some l → l.Sublist s.rows)
    (hvis : s.visible ⊆ idsFin (s.filteredRows.getD s.rows)) :
    (paginateOp limit s).1.pages =
      ((s.filteredRows.getD s.rows).length + limit - 1) / limit ∧
    (∀ k, k < (paginateOp limit s).1.pages →
      (nextPages k (paginateOp limit s).1).visible =
        idsFin (pageSlice (s.filteredRows.getD s.rows) limit (k + 1))) ∧
    (∀ i j, i < j → j < (paginateOp limit s).1.pages →
      Disjoint (idsFin (pageSlice (s.filteredRows.getD s.rows) limit (i + 1)))
        (idsFin (pageSlice (s.filteredRows.getD s.rows) limit (j + 1)))) ∧
    (Finset.range (paginateOp limit s).1.pages).biUnion
        (fun k => idsFin (pageSlice (s.filteredRows.getD s.rows) limit (k + 1))) =
      idsFin (s.filteredRows.getD s.rows) := by
  obtain ⟨hrows, hfil, hipp, hcur, hpag⟩ := paginateOp_fields limit s
  have hvisP := paginateOp_visible limit s hl hN hvis
  refine ⟨?_, ?_, ?_, ?_⟩
  · rw [hpag]; rfl
  · intro k hk
    have hres := nextPages_slice k (paginateOp limit s).1
      (by rw [hfil, hrows]; exact hsub)
      (by rw [hcur, hpag]; rw [hpag] at hk; omega)
      (by rw [hvisP, hfil, hrows, hipp, hcur]; rfl)
    obtain ⟨h1, _, _, _, _, _⟩ := hres
    rw [hfil, hrows, hipp, hcur] at h1
    rw [h1]
    have hadd : 1 + k = k + 1 := by omega
    rw [hadd]
  · intro i j hij _
    rw [idsFin_pageSlice, idsFin_pageSlice]
    simpa using slice_disjoint hN limit i j hij
  · have hjoin := slices_biUnion ((s.filteredRows.getD s.rows).map Row.id) limit
      (paginateOp limit s).1.pages
    have hfun : (fun k => idsFin (pageSlice (s.filteredRows.getD s.rows) limit (k + 1))) =
        (fun k => ((((s.filteredRows.getD s.rows).map Row.id).drop (limit * k)).take
          limit).toFinset) := by
      funext k
      rw [idsFin_pageSlice]
      simp
    rw [hfun, hjoin]
    have hlen : ((s.filteredRows.getD s.rows).map Row.id).length ≤
        limit * (paginateOp limit s).1.pages := by
      rw [List.length_map, hpag]
      exact le_mul_ceilDiv _ limit hl
    rw [List.take_of_length_le hlen]
    rfl

/-- Claim C8, witness: the coverage properties at a concrete two-row
table paginated one row per page. -/
theorem c8_pagination_coverage_witness :
    ((1 : Nat) ≤ 1 ∧
      ((baseState.filteredRows.getD baseState.rows).map Row.id).Nodup ∧
      baseState.visible ⊆ idsFin (baseState.filteredRows.getD baseState.rows)) ∧
    ((paginateOp 1 baseState).1.pages =
        ((baseState.filteredRows.getD baseState.rows).length + 1 - 1) / 1 ∧
      (∀ k, k < (paginateOp 1 baseState).1.pages →
        (nextPages k (paginateOp 1 baseState).1).visible =
          idsFin (pageSlice (baseState.filteredRows.getD baseState.rows) 1 (k + 1))) ∧
      (∀ i j, i < j → j < (paginateOp 1 baseState).1.pages →
        Disjoint (idsFin (pageSlice (baseState.filteredRows.getD baseState.rows) 1 (i + 1)))
          (idsFin (pageSlice (baseState.filteredRows.getD baseState.rows) 1 (j + 1)))) ∧
      (Finset.range (paginateOp 1 baseState).1.pages).biUnion
          (fun k => idsFin (pageSlice (baseState.filteredRows.getD baseState.rows) 1 (k + 1))) =
        idsFin (baseState.filteredRows.getD baseState.rows)) :=
  ⟨⟨le_refl 1, by decide, by decide⟩,
    c8_pagination_coverage baseState 1 (le_refl 1) (by decide)
      (fun l h => Option.noConfusion h) (by decide)⟩

/-- An event is valid when it targets an existing row checkbox. -/
def cbValid (n : Nat) : CbEvent → Bool
  | .header _ => true
  | .row i => decide (i < n)

/-- Checking an unchecked box adds one to the checked count. -/
theorem count_set_true (l : List Bool) (i : Nat) (hi : i < l.length)
    (hold : l.getD i false = false) :
    (l.set i true).count true = l.count true + 1 := by
  induction l generalizing i with
  | nil => simp at hi
  | cons b t ih =>
    cases i with
    | zero =>
      simp only [List.getD_cons_zero] at hold
      subst hold
      simp [List.count_cons]
    | succ j =>
      simp only [List.getD_cons_succ] at hold
      simp only [List.length_cons] at hi
      have hj : j < t.length := by omega
      simp only [List.set_cons_succ, List.count_cons, ih j hj hold]
      omega

/-- Unchecking a checked box removes one from the checked count. -/
theorem count_set_false (l : List Bool) (i : Nat) (hi : i < l.length)
    (hold : l.getD i false = true) :
    (l.set i false).count true + 1 = l.count true := by
  induction l generalizing i with
  | nil => simp at hi
  | cons b t ih =>
    cases i with
    | zero =>
      simp only [List.getD_cons_zero] at hold
      subst hold
      simp [List.count_cons]
    | succ j =>
      simp only [List.getD_cons_succ] at hold
      simp only [List.length_cons] at hi
      have hj : j < t.length := by omega
      simp only [List.set_cons_succ, List.count_cons]
      have hrec := ih j hj hold
      omega

/-- The tri-state rule for the header checkbox display. -/
def displayOk (n : Nat) (st : CheckboxState) : Prop :=
  (st.selectedRows = 0 → st.headerChecked = false ∧ st.headerInd = false) ∧
  (st.selectedRows = (n : Int) → st.headerChecked = true ∧ st.headerInd = false) ∧
  (0 < st.selectedRows → st.selectedRows < (n : Int) →
    st.headerChecked = false ∧ st.headerInd = true)

/-- The inductive invariant of the checkbox handler: the box list has one
entry per row, the counter is in sync with the boxes, and the display
matches the tri-state rule. -/
def cbInv (n : Nat) (st : CheckboxState) : Prop :=
  st.boxes.length = n ∧ st.selectedRows = (st.boxes.count true : Int) ∧ displayOk n st


/-- One valid event preserves the checkbox invariant. -/
theorem cbStep_inv (n : Nat) (hn : 1 ≤ n) (e : CbEvent) (st : CheckboxState)
    (hval : cbValid n e = true) (h : cbInv n st) : cbInv n (cbStep st e) := by
  obtain ⟨hlen, hcnt, hd1, hd2, hd3⟩ := h
  cases e with
  | header v =>
    cases v with
    | true =>
      have hstep : cbStep st (.header true) =
          { boxes := List.replicate st.boxes.length true, headerChecked := true,
            headerInd := false, selectedRows := (st.boxes.length : Int) } := by
        simp [cbStep]
      rw [hstep]
      refine ⟨by simp [hlen], ?_, ?_, ?_, ?_⟩
      · show (st.boxes.length : Int) = ((List.replicate st.boxes.length true).count true : Int)
        rw [List.count_replicate_self]
      · intro h0
        have h0x : (st.boxes.length : Int) = 0 := h0
        exfalso
        omega
      · intro _
        exact ⟨rfl, rfl⟩
      · intro _ h2
        have h2x : (st.boxes.length : Int) < (n : Int) := h2
        exfalso
        omega
    | false =>
      have hstep : cbStep st (.header false) =
          { boxes := List.replicate st.boxes.length false, headerChecked := false,
            headerInd := false, selectedRows := 0 } := by
        simp [cbStep]
      rw [hstep]
      refine ⟨by simp [hlen], ?_, ?_, ?_, ?_⟩
      · show (0 : Int) = ((List.replicate st.boxes.length false).count true : Int)
        simp [List.count_replicate]
      · intro _
        exact ⟨rfl, rfl⟩
      · intro h0
        have h0x : (0 : Int) = (n : Int) := h0
        exfalso
        omega
      · intro h1 _
        have h1x : (0 : Int) < 0 := h1
        exact absurd h1x (by omega)
  | row i =>
    have hi : i < st.boxes.length := by
      rw [hlen]
      exact of_decide_eq_true hval
    cases hold : st.boxes.getD i false with
    | false =>
      have hset := count_set_true st.boxes i hi hold
      have hcle : (st.boxes.set i true).count true ≤ n := by
        have h2 := List.count_le_length (a := true) (l := st.boxes.set i true)
        rwa [List.length_set, hlen] at h2
      have hstep : cbStep st (.row i) =
          (if st.selectedRows + 1 ≤ 0 then
            { boxes := st.boxes.set i true, headerChecked := false, headerInd := false,
              selectedRows := st.selectedRows + 1 }
          else if st.selectedRows + 1 < (st.boxes.length : Int) then
            { boxes := st.boxes.set i true, headerChecked := false, headerInd := true,
              selectedRows := st.selectedRows + 1 }
          else if st.selectedRows + 1 = (st.boxes.length : Int) then
            { boxes := st.boxes.set i true, headerChecked := true, headerInd := false,
              selectedRows := st.selectedRows + 1 }
          else
            { st with
                boxes := st.boxes.set i true
                selectedRows := st.selectedRows + 1 }) := by
        simp only [List.getD_eq_getElem?_getD] at hold
        simp [cbStep, hold]
      rw [hstep]
      have hcnt2 : st.selectedRows + 1 = ((st.boxes.set i true).count true : Int) := by
        rw [hset]
        push_cast
        omega
      split_ifs with h1 h2 h3
      · exfalso
        omega
      · refine ⟨by simp [hlen], hcnt2, ?_, ?_, ?_⟩
        · intro h0
          have h0x : st.selectedRows + 1 = 0 := h0
          exfalso
          omega
        · intro h0
          have h0x : st.selectedRows + 1 = (n : Int) := h0
          rw [hlen] at h2
          exfalso
          omega
        · intro _ _
          exact ⟨rfl, rfl⟩
      · refine ⟨by simp [hlen], hcnt2, ?_, ?_, ?_⟩
        · intro h0
          have h0x : st.selectedRows + 1 = 0 := h0
          exfalso
          omega
        · intro _
          exact ⟨rfl, rfl⟩
        · intro _ h4
          have h4x : st.selectedRows + 1 < (n : Int) := h4
          rw [hlen] at h3
          exfalso
          omega
      · exfalso
        rw [hlen] at h2 h3
        omega
    | true =>
      have hset := count_set_false st.boxes i hi hold
      have hcle : (st.boxes.set i false).count true ≤ n := by
        have h2 := List.count_le_length (a := true) (l := st.boxes.set i false)
        rwa [List.length_set, hlen] at h2
      have hstep : cbStep st (.row i) =
          (if st.selectedRows - 1 ≤ 0 then
            { boxes := st.boxes.set i false, headerChecked := false, headerInd := false,
              selectedRows := st.selectedRows - 1 }
          else if st.selectedRows - 1 < (st.boxes.length : Int) then
            { boxes := st.boxes.set i false, headerChecked := false, headerInd := true,
              selectedRows := st.selectedRows - 1 }
          else if st.selectedRows - 1 = (st.boxes.length : Int) then
            { boxes := st.boxes.set i false, headerChecked := true, headerInd := false,
              selectedRows := st.selectedRows - 1 }
          else
            { st with
                boxes := st.boxes.set i false
                selectedRows := st.selectedRows - 1 }) := by
        simp only [List.getD_eq_getElem?_getD] at hold
        simp [cbStep, hold]
      rw [hstep]
      have hcnt2 : st.selectedRows - 1 = ((st.boxes.set i false).count true : Int) := by
        have hsetZ : ((st.boxes.set i false).count true : Int) + 1 =
            (st.boxes.count true : Int) := by
          exact_mod_cast congrArg (Nat.cast : Nat → Int) hset
        omega
      split_ifs with h1 h2 h3
      · refine ⟨by simp [hlen], hcnt2, ?_, ?_, ?_⟩
        · intro _
          exact ⟨rfl, rfl⟩
        · intro h0
          have h0x : st.selectedRows - 1 = (n : Int) := h0
          exfalso
          omega
        · intro h4 _
          have h4x : (0 : Int) < st.selectedRows - 1 := h4
          exfalso
          omega
      · refine ⟨by simp [hlen], hcnt2, ?_, ?_, ?_⟩
        · intro h0
          have h0x : st.selectedRows - 1 = 0 := h0
          exfalso
          omega
        · intro h0
          have h0x : st.selectedRows - 1 = (n : Int) := h0
          rw [hlen] at h2
          exfalso
          omega
        · intro _ _
          exact ⟨rfl, rfl⟩
      · refine ⟨by simp [hlen], hcnt2, ?_, ?_, ?_⟩
        · intro h0
          have h0x : st.selectedRows - 1 = 0 := h0
          rw [hlen] at h3
          exfalso
          omega
        · intro _
          exact ⟨rfl, rfl⟩
        · intro _ h4
          have h4x : st.selectedRows - 1 < (n : Int) := h4
          rw [hlen] at h3
          exfalso
          omega
      · exfalso
        rw [hlen] at h2 h3
        omega

/-- The all-unchecked initial markup with the constructor's zero counter. -/
def cbInit (n : Nat) : CheckboxState :=
  ⟨List.replicate n false, false, false, 0⟩

/-- The all-unchecked start satisfies the invariant. -/
theorem cbInit_inv (n : Nat) (hn : 1 ≤ n) : cbInv n (cbInit n) := by
  refine ⟨by simp [cbInit], ?_, ?_, ?_, ?_⟩
  · show (0 : Int) = ((List.replicate n false).count true : Int)
    simp [List.count_replicate]
  · intro _
    exact ⟨rfl, rfl⟩
  · intro h0
    have h0x : (0 : Int) = (n : Int) := h0
    exfalso
    omega
  · intro h1 _
    have h1x : (0 : Int) < 0 := h1
    exact absurd h1x (by omega)

/-- Any valid event sequence preserves the invariant. -/
theorem cbRun_inv (n : Nat) (hn : 1 ≤ n) :
    ∀ (l : List CbEvent) (st : CheckboxState), (∀ e ∈ l, cbValid n e = true) →
      cbInv n st → cbInv n (cbRun st l) := by
  intro l
  induction l with
  | nil =>
    intro st _ h
    exact h
  | cons e rest ih =>
    intro st hval hinv
    exact ih (cbStep st e) (fun x hx => hval x (List.mem_cons_of_mem e hx))
      (cbStep_inv n hn e st (hval e (List.mem_cons_self e rest)) hinv)

/-- Claim C4 (amended): starting from the all-unchecked initial markup
(the constructor sets the counter to 0, which then matches the boxes),
for every sequence of header toggles and row-checkbox toggles on existing
rows of a table with at least one row, `0 <= selectedRows <= totalRowCount`
holds and the header checkbox display always matches the tri-state rule. -/
theorem c4_amended_selection_invariant (n : Nat) (hn : 1 ≤ n) (evts : List CbEvent)
    (hval : ∀ e ∈ evts, cbValid n e = true) :
    0 ≤ (cbRun (cbInit n) evts).selectedRows ∧
    (cbRun (cbInit n) evts).selectedRows ≤ (n : Int) ∧
    displayOk n (cbRun (cbInit n) evts) := by
  obtain ⟨hlen, hcnt, hdisp⟩ := cbRun_inv n hn evts (cbInit n) hval (cbInit_inv n hn)
  have hcle := List.count_le_length (a := true) (l := (cbRun (cbInit n) evts).boxes)
  refine ⟨by omega, by rw [hlen] at hcle; omega, hdisp⟩

/-- Markup with one pre-checked row checkbox; the constructor still sets
the counter to 0. -/
def preCheckedInit : CheckboxState :=
  ⟨[true], false, false, 0⟩

/-- Claim C4, counterexample: from a markup configuration with a
pre-checked row checkbox, one uncheck event drives `selectedRows` to -1,
violating `0 <= selectedCount`. -/
theorem c4_counterexample :
    (cbRun preCheckedInit [CbEvent.row 0]).selectedRows = -1 ∧
    ¬(0 ≤ (cbRun preCheckedInit [CbEvent.row 0]).selectedRows) := by
  constructor
  · decide
  · decide

/-- Claim C4, witness for the amended statement: a concrete valid event
sequence on a two-row table. -/
theorem c4_amended_selection_invariant_witness :
    ((1 : Nat) ≤ 2 ∧
      ∀ e ∈ [CbEvent.row 0, CbEvent.header true, CbEvent.row 1], cbValid 2 e = true) ∧
    (0 ≤ (cbRun (cbInit 2) [CbEvent.row 0, CbEvent.header true, CbEvent.row 1]).selectedRows ∧
      (cbRun (cbInit 2) [CbEvent.row 0, CbEvent.header true, CbEvent.row 1]).selectedRows ≤
        ((2 : Nat) : Int) ∧
      displayOk 2 (cbRun (cbInit 2) [CbEvent.row 0, CbEvent.header true, CbEvent.row 1])) :=
  ⟨⟨by decide, by decide⟩,
    c4_amended_selection_invariant 2 (by decide) _ (by decide)⟩

/-- Arithmetic reading of the leap-year test. -/
theorem isLeap_iff (y : Nat) :
    isLeap y = true ↔ ((y % 4 = 0 ∧ y % 100 ≠ 0) ∨ y % 400 = 0) := by
  unfold isLeap
  simp [Bool.or_eq_true, Bool.and_eq_true, beq_iff_eq, bne_iff_ne]

set_option maxHeartbeats 1000000 in
/-- One Gregorian year has 365 days, or 366 in a leap year. -/
theorem daysBeforeYear_succ (y : Nat) :
    daysBeforeYear (y + 1) = daysBeforeYear y + (if isLeap y then 366 else 365) := by
  by_cases hL : isLeap y = true
  · rw [if_pos hL]
    rw [isLeap_iff] at hL
    unfold daysBeforeYear
    omega
  · rw [if_neg hL]
    have hL2 : ¬((y % 4 = 0 ∧ y % 100 ≠ 0) ∨ y % 400 = 0) := by
      rw [← isLeap_iff]
      exact hL
    unfold daysBeforeYear
    omega

/-- Every month within a year spans at least 28 days of offset. -/
theorem monthOffset_succ_ge (l : Bool) (m0 : Nat) (hm : m0 < 11) :
    monthOffset l m0 + 28 ≤ monthOffset l (m0 + 1) := by
  cases l <;> interval_cases m0 <;> decide

/-- The first of the next month is at least 28 days later. -/
theorem firstOfMonth_succ_ge (mu : Nat) :
    firstOfMonth mu + 28 ≤ firstOfMonth (mu + 1) := by
  unfold firstOfMonth
  by_cases h : mu % 12 < 11
  · have h1 : (mu + 1) / 12 = mu / 12 := by omega
    have h2 : (mu + 1) % 12 = mu % 12 + 1 := by omega
    rw [h1, h2]
    have hstep := monthOffset_succ_ge (isLeap (mu / 12)) (mu % 12) h
    omega
  · have h12 : mu % 12 = 11 := by omega
    have h1 : (mu + 1) / 12 = mu / 12 + 1 := by omega
    have h2 : (mu + 1) % 12 = 0 := by omega
    rw [h1, h2, h12, daysBeforeYear_succ (mu / 12)]
    cases hL : isLeap (mu / 12) <;> simp [monthOffset, hL]

/-- `firstOfMonth` is monotone. -/
theorem firstOfMonth_mono : ∀ {a b : Nat}, a ≤ b → firstOfMonth a ≤ firstOfMonth b := by
  intro a b hab
  induction hab with
  | refl => exact le_refl _
  | @step m hm ih =>
    have hstep := firstOfMonth_succ_ge m
    simp only [Nat.succ_eq_add_one]
    omega

/-- A strictly earlier month starts at least 28 days earlier. -/
theorem firstOfMonth_gap {a b : Nat} (hab : a < b) :
    firstOfMonth a + 28 ≤ firstOfMonth b :=
  (firstOfMonth_succ_ge a).trans (firstOfMonth_mono hab)

/-- Strict monotonicity of the modelled `Date` constructor with respect to
calendar (lexicographic) order, for four-digit years, months `1..12` and
days `1..28`: the uniform off-by-one month shift keeps relative order as
long as the day never overflows a month. -/
theorem jsMakeDate_lt (y1 m1 d1 y2 m2 d2 : Nat)
    (hy1 : 100 ≤ y1) (hy2 : 100 ≤ y2)
    (hm1 : 1 ≤ m1) (hm1b : m1 ≤ 12) (hm2 : 1 ≤ m2) (hm2b : m2 ≤ 12)
    (hd1 : 1 ≤ d1) (hd1b : d1 ≤ 28) (hd2 : 1 ≤ d2) (hd2b : d2 ≤ 28)
    (hlt : y1 < y2 ∨ (y1 = y2 ∧ m1 < m2) ∨ (y1 = y2 ∧ m1 = m2 ∧ d1 < d2)) :
    jsMakeDate y1 m1 d1 < jsMakeDate y2 m2 d2 := by
  simp only [jsMakeDate]
  rw [if_neg (by omega), if_neg (by omega)]
  rcases hlt with h | ⟨hy, hm⟩ | ⟨hy, hm, hd⟩
  · have hmu : 12 * y1 + m1 < 12 * y2 + m2 := by omega
    have hgap := firstOfMonth_gap hmu
    omega
  · subst hy
    have hmu : 12 * y1 + m1 < 12 * y1 + m2 := by omega
    have hgap := firstOfMonth_gap hmu
    omega
  · subst hy
    subst hm
    omega

/-- When the split yields three numeric tokens, the conversion builds the
`Date` from the tokens the format selects (`specDenotedDate` giving the
denoted `(year, month, day)`, which the code passes with the month as a
zero-based index). -/
theorem convertStringToDate_eq (sdate fmt : String) (t1 t2 t3 : String)
    (a b c : Nat)
    (hsplit : jsSplit sdate = [t1, t2, t3])
    (h1 : jsToNumber t1 = some a) (h2 : jsToNumber t2 = some b)
    (h3 : jsToNumber t3 = some c)
    (y m d : Nat) (hden : specDenotedDate fmt a b c = some (y, m, d)) :
    convertStringToDate sdate fmt = some (jsMakeDate y m d) := by
  unfold specDenotedDate at hden
  split at hden
  all_goals try exact Option.noConfusion hden
  all_goals
    simp only [Option.some.injEq, Prod.mk.injEq] at hden
    obtain ⟨hy, hm, hd⟩ := hden
    subst hy
    subst hm
    subst hd
    simp [convertStringToDate, hsplit, h1, h2, h3]

/-- Claim C2 (amended): the conversion splits only at `.` and `/` — in
the source's regex character class the hyphen is the range operator, so
`-` is *not* a delimiter — and maps the three numeric tokens per the
format's token order into the `Date` constructor, which takes the month
token as a zero-based index (a uniform one-month shift).  For two
same-format cells with four-digit years, months `1..12` and days `1..28`
(so the shifted day never overflows a month), the sort comparator's
chronological comparison agrees with the calendar order of the denoted
dates. -/
theorem c2_amended_date_conversion (s1 s2 fmt : String)
    (t1 t2 t3 u1 u2 u3 : String) (a1 b1 c1 a2 b2 c2 : Nat)
    (hs1 : jsSplit s1 = [t1, t2, t3]) (hs2 : jsSplit s2 = [u1, u2, u3])
    (hn1 : jsToNumber t1 = some a1) (hn2 : jsToNumber t2 = some b1)
    (hn3 : jsToNumber t3 = some c1)
    (ho1 : jsToNumber u1 = some a2) (ho2 : jsToNumber u2 = some b2)
    (ho3 : jsToNumber u3 = some c2)
    (y1 m1 d1 y2 m2 d2 : Nat)
    (hden1 : specDenotedDate fmt a1 b1 c1 = some (y1, m1, d1))
    (hden2 : specDenotedDate fmt a2 b2 c2 = some (y2, m2, d2))
    (hy1 : 100 ≤ y1) (hy2 : 100 ≤ y2)
    (hm1 : 1 ≤ m1) (hm1b : m1 ≤ 12) (hm2 : 1 ≤ m2) (hm2b : m2 ≤ 12)
    (hd1 : 1 ≤ d1) (hd1b : d1 ≤ 28) (hd2 : 1 ≤ d2) (hd2b : d2 ≤ 28) :
    jsDateOrd (convertStringToDate s1 fmt) (convertStringToDate s2 fmt) =
      tripleCompare (y1, m1, d1) (y2, m2, d2) := by
  rw [convertStringToDate_eq s1 fmt t1 t2 t3 a1 b1 c1 hs1 hn1 hn2 hn3 y1 m1 d1 hden1,
    convertStringToDate_eq s2 fmt u1 u2 u3 a2 b2 c2 hs2 ho1 ho2 ho3 y2 m2 d2 hden2]
  show (if jsMakeDate y1 m1 d1 < jsMakeDate y2 m2 d2 then Ordering.lt
    else if jsMakeDate y2 m2 d2 < jsMakeDate y1 m1 d1 then Ordering.gt else Ordering.eq) =
    tripleCompare (y1, m1, d1) (y2, m2, d2)
  by_cases ha : y1 < y2 ∨ (y1 = y2 ∧ m1 < m2) ∨ (y1 = y2 ∧ m1 = m2 ∧ d1 < d2)
  · have hv : jsMakeDate y1 m1 d1 < jsMakeDate y2 m2 d2 :=
      jsMakeDate_lt y1 m1 d1 y2 m2 d2 hy1 hy2 hm1 hm1b hm2 hm2b hd1 hd1b hd2 hd2b ha
    rw [if_pos hv]
    simp only [tripleCompare]
    split_ifs <;> first | rfl | (exfalso; omega)
  · by_cases hb : y2 < y1 ∨ (y2 = y1 ∧ m2 < m1) ∨ (y2 = y1 ∧ m2 = m1 ∧ d2 < d1)
    · have hv : jsMakeDate y2 m2 d2 < jsMakeDate y1 m1 d1 :=
        jsMakeDate_lt y2 m2 d2 y1 m1 d1 hy2 hy1 hm2 hm2b hm1 hm1b hd2 hd2b hd1 hd1b hb
      rw [if_neg (by omega), if_pos hv]
      simp only [tripleCompare]
      split_ifs <;> first | rfl | (exfalso; omega)
    · have hy : y1 = y2 := by omega
      have hm : m1 = m2 := by omega
      have hd : d1 = d2 := by omega
      subst hy
      subst hm
      subst hd
      rw [if_neg (by omega), if_neg (by omega)]
      simp only [tripleCompare]
      split_ifs <;> first | rfl | (exfalso; omega)

/-- Claim C2, counterexample: the split regex does not treat `-` as a
delimiter (a hyphen-delimited date stays one token, not three), and for
`.`-delimited dates the zero-based month shift inverts chronological
order across a month boundary: under `DMY`, `31.01.2020` (31 January)
compares *greater* than `01.02.2020` (1 February). -/
theorem c2_counterexample :
    (jsSplit "01-02-2020").length = 1 ∧
    jsDateOrd (convertStringToDate "31.01.2020" "DMY")
        (convertStringToDate "01.02.2020" "DMY") = Ordering.gt ∧
    tripleCompare (2020, 1, 31) (2020, 2, 1) = Ordering.lt := by
  refine ⟨?_, ?_, ?_⟩ <;> decide

/-- Claim C2, witness for the amended statement at concrete `YMD` dates. -/
theorem c2_amended_date_conversion_witness :
    (jsSplit "2020.01.02" = ["2020", "01", "02"] ∧
      jsSplit "2020.01.03" = ["2020", "01", "03"] ∧
      specDenotedDate "YMD" 2020 1 2 = some (2020, 1, 2) ∧
      specDenotedDate "YMD" 2020 1 3 = some (2020, 1, 3)) ∧
    jsDateOrd (convertStringToDate "2020.01.02" "YMD")
        (convertStringToDate "2020.01.03" "YMD") =
      tripleCompare (2020, 1, 2) (2020, 1, 3) :=
  ⟨⟨by decide, by decide, by decide, by decide⟩,
    c2_amended_date_conversion "2020.01.02" "2020.01.03" "YMD"
      "2020" "01" "02" "2020" "01" "03" 2020 1 2 2020 1 3
      (by decide) (by decide) (by decide) (by decide) (by decide)
      (by decide) (by decide) (by decide)
      2020 1 2 2020 1 3 (by decide) (by decide)
      (by decide) (by decide) (by decide) (by decide) (by decide) (by decide)
      (by decide) (by decide) (by decide) (by decide)⟩
